import Mathlib

set_option linter.unusedVariables false

/-!
Shallow embedding of the task persistence and caching layer of the tg_bot
repository (`src/db_connect.py`, with the bot-level add handler and startup
from `src/bot_functions.py` and `src/bot.py`).

Modelling conventions:
* The PostgreSQL `tasks` table is a list of `TaskRow` rows inside a `State`,
  together with the `SERIAL` counter (`nextId`) and a logical clock (`now`)
  standing for `NOW()`; the clock is strictly monotone (timestamps have
  microsecond resolution and successive inserts get distinct timestamps).
* The Redis keyspace is an association list from string keys to cached
  payloads.  `CacheVal.tasksJson ts` is `json.dumps` applied to a task list
  (always decodable); `CacheVal.badJson s` is a payload on which
  `json.loads` raises `JSONDecodeError`.
* `cacheUp` states whether Redis calls succeed; `cacheUp = false` is the
  "simulated cache outage" in which every Redis call raises.  Raised
  exceptions that escape a Python function are modelled with `Except`.
* The durable store itself is assumed reachable in all per-operation
  models (`get_db_conn` succeeding); the one startup-time claim about an
  unreachable store is modelled separately by `init_db` / `main_startup`.
-/

/-- A row of the `tasks` table (`CREATE TABLE` in `db_connect.init_db`):
`id SERIAL PRIMARY KEY, user_id BIGINT, text TEXT, done BOOLEAN DEFAULT
FALSE, created_at TIMESTAMP DEFAULT NOW(), task_id_in_list INT`. -/
structure TaskRow where
  id : Nat
  userId : Nat
  text : String
  done : Bool
  createdAt : Nat
  taskIdInList : Nat
  deriving Repr, DecidableEq

/-- A value stored in Redis under a `tasks:{user_id}` key. -/
inductive CacheVal where
  | tasksJson (ts : List TaskRow)
  | badJson (s : String)
  deriving Repr, DecidableEq

/-- The combined state of PostgreSQL and Redis. -/
structure State where
  rows : List TaskRow
  nextId : Nat
  now : Nat
  cache : List (String × CacheVal)
  cacheUp : Bool
  deriving Repr, DecidableEq

/-- `db_connect.cache_key`: `f"tasks:{user_id}"`. -/
def cache_key (user_id : Nat) : String :=
  "tasks:" ++ Nat.repr user_id

/-- Redis `GET key` (the value stored at `key`, if any). -/
def cacheLookup (s : State) (k : String) : Option CacheVal :=
  (s.cache.find? (fun kv => kv.1 == k)).map (fun kv => kv.2)

/-- Redis `DEL key`. -/
def cacheDelete (c : List (String × CacheVal)) (k : String) : List (String × CacheVal) :=
  c.filter (fun kv => kv.1 != k)

/-- Redis `SET key v` (overwrite). -/
def cacheSet (c : List (String × CacheVal)) (k : String) (v : CacheVal) :
    List (String × CacheVal) :=
  (k, v) :: cacheDelete c k

/-- `db_connect.invalidate_cache`: `redis_client.delete(cache_key(user_id))`
inside `try/except` — a failing delete (cache outage) is swallowed and the
function returns normally either way. -/
def invalidate_cache (s : State) (user_id : Nat) : State :=
  if s.cacheUp then { s with cache := cacheDelete s.cache (cache_key user_id) }
  else s

/-- Rows of one owner: `WHERE user_id = %s`. -/
def userTasks (rows : List TaskRow) (user_id : Nat) : List TaskRow :=
  rows.filter (fun t => t.userId == user_id)

/-- `SELECT MAX(task_id_in_list) FROM tasks WHERE user_id = %s` combined
with the caller's `(max_id or 0)`: the maximum position of the owner's
rows, `0` when the owner has none (SQL `MAX` over no rows is `NULL`). -/
def maxPosition (rows : List TaskRow) (user_id : Nat) : Nat :=
  ((userTasks rows user_id).map (fun t => t.taskIdInList)).foldr max 0

/-- `db_connect.save_task_to_db`: computes `new_id = (max_id or 0) + 1`,
inserts a row (store fills `id` from the serial counter, `done = FALSE`,
`created_at = NOW()`), commits, invalidates the owner's cache entry and
returns the assigned `task_id_in_list`. -/
def save_task_to_db (s : State) (user_id : Nat) (text : String) : Option Nat × State :=
  let new_id := maxPosition s.rows user_id + 1
  let row : TaskRow :=
    { id := s.nextId, userId := user_id, text := text,
      done := false, createdAt := s.now, taskIdInList := new_id }
  let s' : State := { s with rows := s.rows ++ [row], nextId := s.nextId + 1, now := s.now + 1 }
  (some new_id, invalidate_cache s' user_id)

/-- Whether a row matches `user_id = %s AND task_id_in_list = %s`. -/
def taskExists (rows : List TaskRow) (user_id pos : Nat) : Bool :=
  rows.any (fun t => t.userId == user_id && t.taskIdInList == pos)

/-- `db_connect.mark_done_in_db`: `UPDATE tasks SET done = TRUE WHERE
user_id = %s AND task_id_in_list = %s`; if `rowcount == 0` it returns
`False` (the zero-row update changed nothing), otherwise commits,
invalidates the owner's cache entry and returns `True`. -/
def mark_done_in_db (s : State) (user_id pos : Nat) : Bool × State :=
  if taskExists s.rows user_id pos then
    let rows' := s.rows.map (fun t =>
      if t.userId == user_id && t.taskIdInList == pos then { t with done := true } else t)
    (true, invalidate_cache { s with rows := rows' } user_id)
  else (false, s)

/-- Comparison on `created_at` (`ORDER BY created_at`). -/
def created_le (a b : TaskRow) : Prop := a.createdAt ≤ b.createdAt

instance : DecidableRel created_le := fun a b => Nat.decLe a.createdAt b.createdAt

instance : IsTotal TaskRow created_le := ⟨fun a b => Nat.le_total a.createdAt b.createdAt⟩

instance : IsTrans TaskRow created_le := ⟨fun _ _ _ h h' => Nat.le_trans h h'⟩

/-- The renumbering `UPDATE` of `db_connect.delete_task_from_db`:
`UPDATE tasks SET task_id_in_list = subquery.new_id FROM (SELECT id,
ROW_NUMBER() OVER (ORDER BY created_at) AS new_id FROM tasks WHERE
user_id = %s) AS subquery WHERE tasks.id = subquery.id`.  Every table row
whose `id` occurs in the subquery (the owner's rows ranked by
`created_at`) receives its rank as the new position. -/
def renumFn (sorted : List TaskRow) (t : TaskRow) : TaskRow :=
  match sorted.findIdx? (fun x => x.id == t.id) with
  | some i => { t with taskIdInList := i + 1 }
  | none => t

/-- The full renumbering update: every table row receives `renumFn` of the
owner's rows ranked by `created_at`. -/
def renumber_user (rows : List TaskRow) (user_id : Nat) : List TaskRow :=
  rows.map (renumFn (List.insertionSort created_le (userTasks rows user_id)))

/-- `db_connect.delete_task_from_db`: `DELETE ... WHERE user_id = %s AND
task_id_in_list = %s`; `rowcount == 0` returns `False` with no change;
otherwise the renumbering update runs in the same transaction, the owner's
cache entry is invalidated and `True` is returned. -/
def delete_task_from_db (s : State) (user_id pos : Nat) : Bool × State :=
  if taskExists s.rows user_id pos then
    let remaining := s.rows.filter (fun t => !(t.userId == user_id && t.taskIdInList == pos))
    (true, invalidate_cache { s with rows := renumber_user remaining user_id } user_id)
  else (false, s)

/-- `db_connect.clear_all_tasks_db`: counts the owner's rows; zero rows is
`(True, 0)` with no mutation and no invalidation; otherwise deletes all of
the owner's rows, invalidates the cache entry and returns the count. -/
def clear_all_tasks_db (s : State) (user_id : Nat) : (Bool × Nat) × State :=
  let count_before := (userTasks s.rows user_id).length
  if count_before = 0 then ((true, 0), s)
  else ((true, count_before),
    invalidate_cache { s with rows := s.rows.filter (fun t => !(t.userId == user_id)) } user_id)

/-- `db_connect.done_all_tasks_db`: counts the owner's rows with
`done = FALSE`; zero is `(True, 0)` with no mutation; otherwise
`UPDATE tasks SET done = TRUE WHERE user_id = %s`, invalidation, and the
pending count is returned. -/
def done_all_tasks_db (s : State) (user_id : Nat) : (Bool × Nat) × State :=
  let count_pending := ((userTasks s.rows user_id).filter (fun t => !t.done)).length
  if count_pending = 0 then ((true, 0), s)
  else
    let rows' := s.rows.map (fun t => if t.userId == user_id then { t with done := true } else t)
    ((true, count_pending), invalidate_cache { s with rows := rows' } user_id)

/-- Comparison on `task_id_in_list` (`ORDER BY task_id_in_list`). -/
def pos_le (a b : TaskRow) : Prop := a.taskIdInList ≤ b.taskIdInList

instance : DecidableRel pos_le := fun a b => Nat.decLe a.taskIdInList b.taskIdInList

instance : IsTotal TaskRow pos_le := ⟨fun a b => Nat.le_total a.taskIdInList b.taskIdInList⟩

instance : IsTrans TaskRow pos_le := ⟨fun _ _ _ h h' => Nat.le_trans h h'⟩

/-- The `SELECT ... WHERE user_id = %s ORDER BY task_id_in_list` of
`load_tasks_from_db`. -/
def selectUserTasksOrdered (rows : List TaskRow) (user_id : Nat) : List TaskRow :=
  List.insertionSort pos_le (userTasks rows user_id)

/-- `db_connect.load_tasks_from_db`: selects the owner's rows ordered by
position, then `redis_client.set(cache_key(user_id), json.dumps(tasks))`
inside the same `try` block — if the cache write raises (outage), the
`except` clause catches it and the function returns `[]` with no cache
change. -/
def load_tasks_from_db (s : State) (user_id : Nat) : List TaskRow × State :=
  let tasks := selectUserTasksOrdered s.rows user_id
  if s.cacheUp then
    (tasks, { s with cache := cacheSet s.cache (cache_key user_id) (CacheVal.tasksJson tasks) })
  else ([], s)

/-- `json.loads` on a cached payload, as used by `get_user_tasks`:
succeeds exactly on well-formed task-list JSON. -/
def json_loads_tasks : CacheVal → Option (List TaskRow)
  | CacheVal.tasksJson ts => some ts
  | CacheVal.badJson _ => none

/-- `db_connect.get_user_tasks`: `redis_client.get(cache_key(user_id))` is
called outside any `try/except`, so during a cache outage the raised
exception propagates out of the function (`Except.error ()`).  A present
payload is decoded; only `json.JSONDecodeError` is caught, falling through
to `load_tasks_from_db`, which also runs on a cache miss. -/
def get_user_tasks (s : State) (user_id : Nat) : Except Unit (List TaskRow) × State :=
  if s.cacheUp then
    match cacheLookup s (cache_key user_id) with
    | some v =>
      match json_loads_tasks v with
      | some ts => (Except.ok ts, s)
      | none =>
        let r := load_tasks_from_db s user_id
        (Except.ok r.1, r.2)
    | none =>
      let r := load_tasks_from_db s user_id
      (Except.ok r.1, r.2)
  else (Except.error (), s)

/-- An add or delete operation, as in claim C1. -/
inductive Op where
  | add (user_id : Nat) (text : String)
  | del (user_id : Nat) (pos : Nat)
  deriving Repr, DecidableEq

/-- The state of a fresh deployment: empty table, serial counter at 1,
empty cache, cache reachable. -/
def initial_state : State :=
  { rows := [], nextId := 1, now := 0, cache := [], cacheUp := true }

/-- Run one operation against the store (the state component of the
corresponding `db_connect` call). -/
def applyOp (s : State) : Op → State
  | Op.add u t => (save_task_to_db s u t).2
  | Op.del u p => (delete_task_from_db s u p).2

/-- Run a sequence of operations from the fresh deployment state. -/
def runOps (ops : List Op) : State :=
  ops.foldl applyOp initial_state

/-- Dialog stage of `bot_functions.user_state[user_id]['stage']`. -/
inductive Stage where
  | waitingSurname
  | waitingTask
  deriving Repr, DecidableEq

/-- The `data` dictionary of a `bot_functions.user_state` entry. -/
structure DialogData where
  taskText : String
  surname : Option String
  deriving Repr, DecidableEq

/-- The replies `bot_functions.add_task` / `bot.add_task` can send. -/
inductive Reply where
  | askSurname
  | askTask
  | added (pos : Nat)
  | addFailed
  | emptyText
  deriving Repr, DecidableEq

/-- Bot process state of `bot_functions.py`: the `user_state` dictionary
plus the storage state. -/
structure BotState where
  userState : List (Nat × Stage × DialogData)
  db : State
  deriving Repr, DecidableEq

/-- Lookup in the `user_state` dictionary. -/
def stateLookup (us : List (Nat × Stage × DialogData)) (u : Nat) :
    Option (Stage × DialogData) :=
  (us.find? (fun e => e.1 == u)).map (fun e => e.2)

/-- `user_state[u] = entry` (dictionary assignment). -/
def stateSet (us : List (Nat × Stage × DialogData)) (u : Nat)
    (entry : Stage × DialogData) : List (Nat × Stage × DialogData) :=
  (u, entry) :: us.filter (fun e => e.1 != u)

/-- `user_state.pop(u, None)`. -/
def stateRemove (us : List (Nat × Stage × DialogData)) (u : Nat) :
    List (Nat × Stage × DialogData) :=
  us.filter (fun e => e.1 != u)

/-- Python `str.strip()`: remove leading and trailing whitespace
characters from the text. -/
def pyStrip (s : String) : String :=
  ⟨((s.data.dropWhile Char.isWhitespace).reverse.dropWhile Char.isWhitespace).reverse⟩

/-- `bot_functions.add_task`, the catch-all text handler: strips the
message text; an active dialog is advanced (`waiting_surname` stores the
surname and asks for the task; `waiting_task` overwrites `task_text` with
the stripped text, saves it via `save_task_to_db`, and clears the state);
with no active dialog, non-empty text opens a dialog asking for the
surname, while empty text gets the validation reply. -/
def add_task_fn (bs : BotState) (u : Nat) (msgText : String) : Reply × BotState :=
  let text := pyStrip msgText
  match stateLookup bs.userState u with
  | some (stage, data) =>
    match stage with
    | Stage.waitingSurname =>
      (Reply.askTask,
       { bs with userState :=
          stateSet bs.userState u (Stage.waitingTask, { data with surname := some text }) })
    | Stage.waitingTask =>
      let r := save_task_to_db bs.db u text
      let bs' : BotState := { userState := stateRemove bs.userState u, db := r.2 }
      match r.1 with
      | some n => if n = 0 then (Reply.addFailed, bs') else (Reply.added n, bs')
      | none => (Reply.addFailed, bs')
  | none =>
    if text ≠ "" then
      (Reply.askSurname,
       { bs with userState :=
          stateSet bs.userState u (Stage.waitingSurname, { taskText := text, surname := none }) })
    else (Reply.emptyText, bs)

/-- `bot.add_task` (the `bot.py` variant): strips the text, rejects empty
text, otherwise saves directly.  `if task_id:` is Python truthiness on the
returned position. -/
def add_task_bot (db : State) (u : Nat) (msgText : String) : Reply × State :=
  let text := pyStrip msgText
  if text = "" then (Reply.emptyText, db)
  else
    let r := save_task_to_db db u text
    match r.1 with
    | some n => if n = 0 then (Reply.addFailed, r.2) else (Reply.added n, r.2)
    | none => (Reply.addFailed, r.2)

/-- Outcome of `db_connect.init_db`: with a reachable store the
`CREATE TABLE IF NOT EXISTS` runs and the function returns; with an
unreachable store `get_db_conn` returns `None`, the error is logged and
the function returns normally — it raises in neither case. -/
inductive InitResult where
  | schemaEnsured
  | connectFailedLogged
  deriving Repr, DecidableEq

/-- `db_connect.init_db` as a function of store reachability. -/
def init_db (dbUp : Bool) : InitResult :=
  if dbUp then InitResult.schemaEnsured else InitResult.connectFailedLogged

/-- What the process does after `init_db` during startup. -/
inductive StartupOutcome where
  | pollingStarted
  | haltedBeforePolling
  deriving Repr, DecidableEq

/-- The `__main__` block of `bot_functions.py`: `init_db()` is called and,
since it always returns normally, `bot.polling(...)` is entered
unconditionally afterwards. -/
def main_startup (dbUp : Bool) : InitResult × StartupOutcome :=
  let r := init_db dbUp
  (r, StartupOutcome.pollingStarted)

/-- Number of rows of `ts` created strictly before time `c`. -/
def countLt (ts : List TaskRow) (c : Nat) : Nat :=
  (ts.filter (fun x => x.createdAt < c)).length

/-- Positions agree with rank in creation order: each row's position is
one more than the number of earlier-created rows in the same list. -/
def PosOk (ts : List TaskRow) : Prop :=
  ∀ t ∈ ts, t.taskIdInList = countLt ts t.createdAt + 1

/-- Invariant of states reachable by add/delete operations: the clock
bounds every timestamp, the serial counter bounds every id, ids and
timestamps are pairwise distinct, and every owner's rows are ranked by
creation order. -/
def StoreInv (s : State) : Prop :=
  (∀ t ∈ s.rows, t.createdAt < s.now) ∧
  (∀ t ∈ s.rows, t.id < s.nextId) ∧
  s.rows.Pairwise (fun a b => a.id ≠ b.id) ∧
  s.rows.Pairwise (fun a b => a.createdAt ≠ b.createdAt) ∧
  ∀ u, PosOk (userTasks s.rows u)

/-- Dense numbering for one owner: the positions of the owner's rows are a
permutation of `{1, ..., N}` (`N` = the owner's row count) and strictly
respect creation order. -/
def densePositions (rows : List TaskRow) (user_id : Nat) : Prop :=
  ((userTasks rows user_id).map (fun t => t.taskIdInList)).Perm
      (List.range' 1 (userTasks rows user_id).length) ∧
  ∀ t1 ∈ userTasks rows user_id, ∀ t2 ∈ userTasks rows user_id,
    t1.createdAt < t2.createdAt → t1.taskIdInList < t2.taskIdInList

/-- Fuel-free big-endian decimal digit list of a natural number, used to
reason about `Nat.repr` (which is fuel-based). -/
def natDigits (n : Nat) : List Char :=
  if h : n < 10 then [Nat.digitChar n]
  else natDigits (n / 10) ++ [Nat.digitChar (n % 10)]
decreasing_by exact Nat.div_lt_self (by omega) (by omega)

/-- Numeric value of a decimal digit list (left fold). -/
def digitsVal (l : List Char) : Nat :=
  l.foldl (fun a c => a * 10 + (c.toNat - 48)) 0

/-- A store state with one task of owner 1 and a stale (empty-list) cache
entry for owner 1. -/
def w_stale : State :=
  { rows := [{ id := 1, userId := 1, text := "a", done := false, createdAt := 0,
               taskIdInList := 1 }],
    nextId := 2, now := 1,
    cache := [(cache_key 1, CacheVal.tasksJson [])], cacheUp := true }

/-- A store state with one task of owner 1 during a cache outage. -/
def w_outage : State :=
  { rows := [{ id := 1, userId := 1, text := "a", done := false, createdAt := 0,
               taskIdInList := 1 }],
    nextId := 2, now := 1, cache := [], cacheUp := false }

/-- A store state with one task of owner 1 and an undecodable cache entry
for owner 1. -/
def w_corrupt : State :=
  { rows := [{ id := 1, userId := 1, text := "a", done := false, createdAt := 0,
               taskIdInList := 1 }],
    nextId := 2, now := 1,
    cache := [(cache_key 1, CacheVal.badJson "corrupt")], cacheUp := true }

/-- A store state with two tasks of owner 1 (the second already done). -/
def w_small : State :=
  { rows := [{ id := 1, userId := 1, text := "a", done := false, createdAt := 0,
               taskIdInList := 1 },
             { id := 2, userId := 1, text := "b", done := true, createdAt := 1,
               taskIdInList := 2 }],
    nextId := 3, now := 2, cache := [], cacheUp := true }

/-- A fresh bot process: no dialogs, fresh store. -/
def bs0 : BotState :=
  { userState := [], db := initial_state }

/-- The three-message dialog of `bot_functions.add_task` for user 5:
an opening text, a surname, then a whitespace-only task message. -/
def c6_trace : Reply × BotState :=
  add_task_fn (add_task_fn (add_task_fn bs0 5 "buy milk").2 5 "Ivanov").2 5 "   "

theorem cacheLookup_cacheDelete (c : List (String × CacheVal)) (k : String) :
    ((cacheDelete c k).find? (fun kv => kv.1 == k)).map (fun kv => kv.2) = none := by
  have h : (cacheDelete c k).find? (fun kv => kv.1 == k) = none := by
    rw [List.find?_eq_none]
    intro x hx
    simp only [cacheDelete, List.mem_filter, bne_iff_ne, ne_eq] at hx
    simp [hx.2]
  rw [h]
  rfl

theorem invalidate_cache_rows (s : State) (u : Nat) :
    (invalidate_cache s u).rows = s.rows := by
  unfold invalidate_cache
  split <;> rfl

theorem invalidate_cache_cacheUp (s : State) (u : Nat) :
    (invalidate_cache s u).cacheUp = s.cacheUp := by
  unfold invalidate_cache
  split <;> rfl

theorem invalidate_cache_lookup (s : State) (u : Nat) (h : s.cacheUp = true) :
    cacheLookup (invalidate_cache s u) (cache_key u) = none := by
  unfold invalidate_cache cacheLookup
  rw [if_pos h]
  exact cacheLookup_cacheDelete s.cache (cache_key u)

theorem get_after_invalidated (s : State) (u : Nat) (hup : s.cacheUp = true)
    (hnone : cacheLookup s (cache_key u) = none) :
    (get_user_tasks s u).1 = Except.ok (selectUserTasksOrdered s.rows u) := by
  unfold get_user_tasks
  rw [if_pos hup, hnone]
  unfold load_tasks_from_db
  rw [if_pos hup]

/-- C2: a successful add assigns the new task the position
`max(existing positions of the owner) + 1` — which is `1` when the owner
has no tasks — inserts exactly that row, and returns that position; in
particular two consecutive adds for a fresh owner return 1 and then 2. -/
theorem save_assigns_next_position (s : State) (u : Nat) (text : String) :
    (save_task_to_db s u text).1 = some (maxPosition s.rows u + 1) ∧
    (userTasks s.rows u = [] → (save_task_to_db s u text).1 = some 1) ∧
    (save_task_to_db s u text).2.rows =
      s.rows ++ [{ id := s.nextId, userId := u, text := text, done := false,
                   createdAt := s.now, taskIdInList := maxPosition s.rows u + 1 }] ∧
    (save_task_to_db initial_state 1 "buy milk").1 = some 1 ∧
    (save_task_to_db (save_task_to_db initial_state 1 "buy milk").2 1 "call mom").1 = some 2 := by
  refine ⟨rfl, ?_, ?_, rfl, rfl⟩
  · intro h
    simp [save_task_to_db, maxPosition, h]
  · simp [save_task_to_db, invalidate_cache_rows]

/-- C2 witness: instantiation at a fresh owner of the concrete two-task
state. -/
theorem save_assigns_next_position_witness :
    userTasks w_small.rows 7 = [] ∧
    (save_task_to_db w_small 7 "x").1 = some (maxPosition w_small.rows 7 + 1) := by
  have h := save_assigns_next_position w_small 7 "x"
  exact ⟨by decide, h.1⟩

/-- C8: when no task of the owner has the given position, both
`mark_done_in_db` and `delete_task_from_db` return `False` and leave the
whole state (every task of every owner, and the caches) unchanged. -/
theorem not_found_no_change (s : State) (u p : Nat)
    (h : taskExists s.rows u p = false) :
    mark_done_in_db s u p = (false, s) ∧ delete_task_from_db s u p = (false, s) := by
  constructor
  · unfold mark_done_in_db
    rw [h]
    simp
  · unfold delete_task_from_db
    rw [h]
    simp

/-- C8 witness: position 99 for owner 1, who has only tasks 1 and 2. -/
theorem not_found_no_change_witness :
    taskExists w_small.rows 1 99 = false ∧
    (mark_done_in_db w_small 1 99 = (false, w_small) ∧
     delete_task_from_db w_small 1 99 = (false, w_small)) :=
  ⟨by decide, not_found_no_change w_small 1 99 (by decide)⟩

/-- C7 counterexample: with the store unreachable at startup, `init_db`
merely logs the failure and returns, and the `__main__` block then starts
polling — the process is not halted before serving requests. -/
theorem startup_counterexample :
    main_startup false = (InitResult.connectFailedLogged, StartupOutcome.pollingStarted) ∧
    (main_startup false).2 ≠ StartupOutcome.haltedBeforePolling := by
  exact ⟨rfl, by decide⟩

/-- C7 amended: whether or not the store is reachable, startup proceeds to
polling; an unreachable store during `init_db` only produces a logged
failure. -/
theorem startup_always_polls :
    (∀ dbUp : Bool, (main_startup dbUp).2 = StartupOutcome.pollingStarted) ∧
    init_db false = InitResult.connectFailedLogged :=
  ⟨fun _ => rfl, rfl⟩

theorem cacheDelete_idem (c : List (String × CacheVal)) (k : String) :
    cacheDelete (cacheDelete c k) k = cacheDelete c k := by
  unfold cacheDelete
  rw [List.filter_filter]
  apply List.filter_congr
  intro x _
  exact Bool.and_self _

theorem invalidate_cache_idem (s : State) (u : Nat) :
    invalidate_cache (invalidate_cache s u) u = invalidate_cache s u := by
  by_cases h : s.cacheUp = true
  · simp [invalidate_cache, h, cacheDelete_idem]
  · simp [invalidate_cache, h]

theorem markFn_matches (u p : Nat) (t : TaskRow) :
    ((if t.userId == u && t.taskIdInList == p then { t with done := true } else t).userId == u &&
     (if t.userId == u && t.taskIdInList == p then { t with done := true } else t).taskIdInList == p)
      = (t.userId == u && t.taskIdInList == p) := by
  cases hc : (t.userId == u && t.taskIdInList == p) <;> simp [hc]

theorem taskExists_map_mark (rows : List TaskRow) (u p : Nat) :
    taskExists (rows.map (fun t =>
      if t.userId == u && t.taskIdInList == p then { t with done := true } else t)) u p =
    taskExists rows u p := by
  unfold taskExists
  rw [List.any_map]
  congr 1
  funext t
  exact markFn_matches u p t

theorem mark_done_spec (s : State) (u p : Nat) (h : taskExists s.rows u p = true) :
    mark_done_in_db s u p = (true, invalidate_cache { s with rows := s.rows.map (fun t =>
      if t.userId == u && t.taskIdInList == p then { t with done := true } else t) } u) := by
  unfold mark_done_in_db
  rw [if_pos h]

/-- C10: completing an existing position returns `True` whether or not the
task is already done, and completing the same position twice produces
exactly the state of completing it once. -/
theorem mark_done_idempotent (s : State) (u p : Nat)
    (h : taskExists s.rows u p = true) :
    (mark_done_in_db s u p).1 = true ∧
    mark_done_in_db (mark_done_in_db s u p).2 u p = mark_done_in_db s u p := by
  have hspec := mark_done_spec s u p h
  set f : TaskRow → TaskRow := fun t =>
      if t.userId == u && t.taskIdInList == p then { t with done := true } else t with hf
  set s1 : State := invalidate_cache { s with rows := s.rows.map f } u with hs1
  have hrows : s1.rows = s.rows.map f := by
    rw [hs1]
    exact invalidate_cache_rows _ _
  have hex : taskExists s1.rows u p = true := by
    rw [hrows, hf, taskExists_map_mark]
    exact h
  have hspec2 := mark_done_spec s1 u p hex
  constructor
  · rw [hspec]
  · rw [hspec, hspec2]
    have hmap : s1.rows.map f = s1.rows := by
      rw [hrows, List.map_map]
      apply List.map_congr_left
      intro t _
      show f (f t) = f t
      rw [hf]
      cases hc : (t.userId == u && t.taskIdInList == p) <;> simp [hc]
    rw [hmap]
    have heta : ({ s1 with rows := s1.rows } : State) = s1 := rfl
    rw [heta, hs1, invalidate_cache_idem]

/-- C10 witness: position 2 of owner 1 in `w_small` is already done; the
complete operation still returns `True` and is idempotent. -/
theorem mark_done_idempotent_witness :
    taskExists w_small.rows 1 2 = true ∧
    ((mark_done_in_db w_small 1 2).1 = true ∧
     mark_done_in_db (mark_done_in_db w_small 1 2).2 1 2 = mark_done_in_db w_small 1 2) :=
  ⟨by decide, mark_done_idempotent w_small 1 2 (by decide)⟩

/-- C6 counterexample: in the `bot_functions.add_task` dialog flow, after
user 5 opens a dialog and supplies a surname, a whitespace-only third
message is stripped to the empty string and saved: the handler replies
with a success message and the store now holds a task with empty text, so
empty input at the `waiting_task` stage is neither rejected nor kept away
from the store. -/
theorem add_task_dialog_saves_empty_counterexample :
    pyStrip "   " = "" ∧
    c6_trace.1 = Reply.added 1 ∧
    c6_trace.2.db.rows = [{ id := 1, userId := 5, text := "", done := false,
                            createdAt := 0, taskIdInList := 1 }] :=
  ⟨rfl, rfl, rfl⟩

/-- C6 amended: the add entry points do reject empty or whitespace-only
text without touching the store — `bot.add_task` always, and
`bot_functions.add_task` whenever the user has no active dialog. -/
theorem add_rejects_empty_at_entry (db : State) (bs : BotState) (u : Nat)
    (msgText : String) (h : pyStrip msgText = "")
    (hnod : stateLookup bs.userState u = none) :
    add_task_bot db u msgText = (Reply.emptyText, db) ∧
    add_task_fn bs u msgText = (Reply.emptyText, bs) := by
  constructor
  · unfold add_task_bot
    rw [h]
    simp
  · unfold add_task_fn
    rw [hnod, h]
    simp

/-- C6 amended witness: a whitespace-only message to a fresh bot. -/
theorem add_rejects_empty_at_entry_witness :
    pyStrip " " = "" ∧ stateLookup bs0.userState 3 = none ∧
    (add_task_bot initial_state 3 " " = (Reply.emptyText, initial_state) ∧
     add_task_fn bs0 3 " " = (Reply.emptyText, bs0)) :=
  ⟨rfl, rfl, add_rejects_empty_at_entry initial_state bs0 3 " " rfl rfl⟩

/-- C5: a present but undecodable cache entry is treated as a miss —
`get_user_tasks` returns the owner's rows loaded from the store. -/
theorem corrupt_cache_treated_as_miss (s : State) (u : Nat) (j : String)
    (hup : s.cacheUp = true)
    (hc : cacheLookup s (cache_key u) = some (CacheVal.badJson j)) :
    (get_user_tasks s u).1 = Except.ok (selectUserTasksOrdered s.rows u) := by
  unfold get_user_tasks
  rw [if_pos hup, hc]
  unfold json_loads_tasks load_tasks_from_db
  rw [if_pos hup]

/-- C5 witness: owner 1 of `w_corrupt` has a corrupt cache entry, and the
list operation still returns the store's task. -/
theorem corrupt_cache_treated_as_miss_witness :
    w_corrupt.cacheUp = true ∧
    cacheLookup w_corrupt (cache_key 1) = some (CacheVal.badJson "corrupt") ∧
    (get_user_tasks w_corrupt 1).1 =
      Except.ok (selectUserTasksOrdered w_corrupt.rows 1) :=
  ⟨rfl, rfl, corrupt_cache_treated_as_miss w_corrupt 1 "corrupt" rfl rfl⟩

/-- C4 counterexample: in a cache outage (`cacheUp = false`) with one task
in the store, `get_user_tasks` does not return the task data — the failed
cache read escapes as an exception — even though the store holds a task. -/
theorem outage_list_counterexample :
    (get_user_tasks w_outage 1).1 = Except.error () ∧
    userTasks w_outage.rows 1 ≠ [] :=
  ⟨rfl, by decide⟩

/-- C4 amended: during a cache outage every mutating operation still
succeeds against the store and reports success (the cache-invalidation
failure is swallowed), but the read path does not degrade to the store:
`get_user_tasks` propagates the failed cache read, and a direct
`load_tasks_from_db` returns the empty list because its failed cache write
is caught by the blanket handler. -/
theorem outage_mutations_succeed (s : State) (u p : Nat) (text : String)
    (hdown : s.cacheUp = false) (hex : taskExists s.rows u p = true) :
    (save_task_to_db s u text).1 = some (maxPosition s.rows u + 1) ∧
    (mark_done_in_db s u p).1 = true ∧
    (delete_task_from_db s u p).1 = true ∧
    (clear_all_tasks_db s u).1.1 = true ∧
    (done_all_tasks_db s u).1.1 = true ∧
    (get_user_tasks s u).1 = Except.error () ∧
    (load_tasks_from_db s u).1 = [] := by
  refine ⟨rfl, ?_, ?_, ?_, ?_, ?_, ?_⟩
  · unfold mark_done_in_db
    rw [if_pos hex]
  · unfold delete_task_from_db
    rw [if_pos hex]
  · unfold clear_all_tasks_db
    dsimp only
    split <;> rfl
  · unfold done_all_tasks_db
    dsimp only
    split <;> rfl
  · unfold get_user_tasks
    rw [if_neg (by rw [hdown]; exact Bool.false_ne_true)]
  · unfold load_tasks_from_db
    rw [if_neg (by rw [hdown]; exact Bool.false_ne_true)]

/-- C4 amended witness: the outage state with owner 1's task at position 1. -/
theorem outage_mutations_succeed_witness :
    w_outage.cacheUp = false ∧ taskExists w_outage.rows 1 1 = true ∧
    ((save_task_to_db w_outage 1 "x").1 = some (maxPosition w_outage.rows 1 + 1) ∧
     (mark_done_in_db w_outage 1 1).1 = true ∧
     (delete_task_from_db w_outage 1 1).1 = true ∧
     (clear_all_tasks_db w_outage 1).1.1 = true ∧
     (done_all_tasks_db w_outage 1).1.1 = true ∧
     (get_user_tasks w_outage 1).1 = Except.error () ∧
     (load_tasks_from_db w_outage 1).1 = []) :=
  ⟨rfl, by decide, outage_mutations_succeed w_outage 1 1 "x" rfl (by decide)⟩

theorem delete_spec (s : State) (u p : Nat) (h : taskExists s.rows u p = true) :
    delete_task_from_db s u p =
      (true,
       invalidate_cache
         { s with
           rows := renumber_user
                     (s.rows.filter (fun t => !(t.userId == u && t.taskIdInList == p))) u }
         u) := by
  unfold delete_task_from_db
  rw [if_pos h]

theorem clear_spec (s : State) (u : Nat) (h : (userTasks s.rows u).length ≠ 0) :
    clear_all_tasks_db s u = ((true, (userTasks s.rows u).length),
      invalidate_cache { s with rows := s.rows.filter (fun t => !(t.userId == u)) } u) := by
  unfold clear_all_tasks_db
  dsimp only
  rw [if_neg h]

theorem done_all_spec (s : State) (u : Nat)
    (h : ((userTasks s.rows u).filter (fun t => !t.done)).length ≠ 0) :
    done_all_tasks_db s u = ((true, ((userTasks s.rows u).filter (fun t => !t.done)).length),
      invalidate_cache { s with rows := s.rows.map (fun t =>
        if t.userId == u then { t with done := true } else t) } u) := by
  unfold done_all_tasks_db
  dsimp only
  rw [if_neg h]

theorem save_invalidated (s : State) (u : Nat) (text : String) (hup : s.cacheUp = true) :
    cacheLookup (save_task_to_db s u text).2 (cache_key u) = none := by
  unfold save_task_to_db
  dsimp only
  exact invalidate_cache_lookup _ u hup

theorem save_cacheUp (s : State) (u : Nat) (text : String) :
    (save_task_to_db s u text).2.cacheUp = s.cacheUp := by
  unfold save_task_to_db
  dsimp only
  rw [invalidate_cache_cacheUp]

/-- C3: with the cache reachable, each of the five write operations, when
it actually mutates the store, leaves no cache entry for the owner in the
returned state, and a `get_user_tasks` issued on that state returns the
owner's post-mutation rows loaded from the store (not a stale snapshot). -/
theorem write_ops_invalidate_cache (s : State) (u p : Nat) (text : String)
    (hup : s.cacheUp = true) :
    (cacheLookup (save_task_to_db s u text).2 (cache_key u) = none ∧
     (get_user_tasks (save_task_to_db s u text).2 u).1 =
       Except.ok (selectUserTasksOrdered (save_task_to_db s u text).2.rows u)) ∧
    (taskExists s.rows u p = true →
     cacheLookup (mark_done_in_db s u p).2 (cache_key u) = none ∧
     (get_user_tasks (mark_done_in_db s u p).2 u).1 =
       Except.ok (selectUserTasksOrdered (mark_done_in_db s u p).2.rows u)) ∧
    (taskExists s.rows u p = true →
     cacheLookup (delete_task_from_db s u p).2 (cache_key u) = none ∧
     (get_user_tasks (delete_task_from_db s u p).2 u).1 =
       Except.ok (selectUserTasksOrdered (delete_task_from_db s u p).2.rows u)) ∧
    ((userTasks s.rows u).length ≠ 0 →
     cacheLookup (clear_all_tasks_db s u).2 (cache_key u) = none ∧
     (get_user_tasks (clear_all_tasks_db s u).2 u).1 =
       Except.ok (selectUserTasksOrdered (clear_all_tasks_db s u).2.rows u)) ∧
    (((userTasks s.rows u).filter (fun t => !t.done)).length ≠ 0 →
     cacheLookup (done_all_tasks_db s u).2 (cache_key u) = none ∧
     (get_user_tasks (done_all_tasks_db s u).2 u).1 =
       Except.ok (selectUserTasksOrdered (done_all_tasks_db s u).2.rows u)) := by
  refine ⟨⟨save_invalidated s u text hup, ?_⟩, fun hex => ?_, fun hex => ?_,
    fun hc => ?_, fun hd => ?_⟩
  · exact get_after_invalidated _ u (by rw [save_cacheUp]; exact hup)
      (save_invalidated s u text hup)
  · have hnone : cacheLookup (mark_done_in_db s u p).2 (cache_key u) = none := by
      rw [mark_done_spec s u p hex]
      exact invalidate_cache_lookup _ u hup
    refine ⟨hnone, get_after_invalidated _ u ?_ hnone⟩
    rw [mark_done_spec s u p hex]
    exact (invalidate_cache_cacheUp _ u).trans hup
  · have hnone : cacheLookup (delete_task_from_db s u p).2 (cache_key u) = none := by
      rw [delete_spec s u p hex]
      exact invalidate_cache_lookup _ u hup
    refine ⟨hnone, get_after_invalidated _ u ?_ hnone⟩
    rw [delete_spec s u p hex]
    exact (invalidate_cache_cacheUp _ u).trans hup
  · have hnone : cacheLookup (clear_all_tasks_db s u).2 (cache_key u) = none := by
      rw [clear_spec s u hc]
      exact invalidate_cache_lookup _ u hup
    refine ⟨hnone, get_after_invalidated _ u ?_ hnone⟩
    rw [clear_spec s u hc]
    exact (invalidate_cache_cacheUp _ u).trans hup
  · have hnone : cacheLookup (done_all_tasks_db s u).2 (cache_key u) = none := by
      rw [done_all_spec s u hd]
      exact invalidate_cache_lookup _ u hup
    refine ⟨hnone, get_after_invalidated _ u ?_ hnone⟩
    rw [done_all_spec s u hd]
    exact (invalidate_cache_cacheUp _ u).trans hup

/-- C3 witness: `w_stale` holds a stale cached snapshot for owner 1; after
a save for owner 1 the entry is gone and the list reflects the store. -/
theorem write_ops_invalidate_cache_witness :
    w_stale.cacheUp = true ∧
    (cacheLookup (save_task_to_db w_stale 1 "x").2 (cache_key 1) = none ∧
     (get_user_tasks (save_task_to_db w_stale 1 "x").2 1).1 =
       Except.ok (selectUserTasksOrdered (save_task_to_db w_stale 1 "x").2.rows 1)) :=
  ⟨rfl, (write_ops_invalidate_cache w_stale 1 1 "x" rfl).1⟩

theorem toDigitsCore_eq_natDigits (fuel : Nat) :
    ∀ (n : Nat) (ds : List Char), n < fuel →
      Nat.toDigitsCore 10 fuel n ds = natDigits n ++ ds := by
  induction fuel with
  | zero => intro n ds h; omega
  | succ fuel ih =>
    intro n ds h
    by_cases h10 : n < 10
    · have hz : n / 10 = 0 := Nat.div_eq_of_lt h10
      rw [natDigits]
      simp [Nat.toDigitsCore, hz, Nat.mod_eq_of_lt h10, h10]
    · have hz : ¬ (n / 10 = 0) := by omega
      have hlt : n / 10 < fuel := by
        have h1 : n / 10 < n := Nat.div_lt_self (by omega) (by omega)
        omega
      rw [natDigits, dif_neg h10]
      simp only [Nat.toDigitsCore, hz, if_false]
      rw [ih (n / 10) _ hlt, List.append_assoc, List.singleton_append]

theorem toDigits_eq_natDigits (n : Nat) : Nat.toDigits 10 n = natDigits n := by
  have h := toDigitsCore_eq_natDigits (n + 1) n [] (Nat.lt_succ_self n)
  rw [Nat.toDigits, h, List.append_nil]

theorem digitsVal_natDigits (n : Nat) :
    ∀ a : Nat, List.foldl (fun a c => a * 10 + (c.toNat - 48)) a (natDigits n)
      = a * 10 ^ (natDigits n).length + n := by
  induction n using Nat.strong_induction_on with
  | _ n ih =>
    intro a
    by_cases h10 : n < 10
    · rw [natDigits, dif_pos h10]
      have hd : (Nat.digitChar n).toNat - 48 = n := by
        interval_cases n <;> rfl
      simp [hd]
    · have hlt : n / 10 < n := Nat.div_lt_self (by omega) (by omega)
      rw [natDigits, dif_neg h10]
      rw [List.foldl_append, ih (n / 10) hlt a]
      have hd : (Nat.digitChar (n % 10)).toNat - 48 = n % 10 := by
        have hm : n % 10 < 10 := Nat.mod_lt _ (by omega)
        interval_cases h : (n % 10) <;> rfl
      simp [hd, List.length_append]
      ring_nf
      omega

theorem digitsVal_round (n : Nat) : digitsVal (natDigits n) = n := by
  have h := digitsVal_natDigits n 0
  simpa [digitsVal] using h

theorem natDigits_inj {m n : Nat} (h : natDigits m = natDigits n) : m = n := by
  have hm := digitsVal_round m
  rw [h, digitsVal_round] at hm
  exact hm.symm

theorem nat_repr_inj {m n : Nat} (h : Nat.repr m = Nat.repr n) : m = n := by
  apply natDigits_inj
  have h2 := congrArg String.data h
  rw [Nat.repr, Nat.repr, toDigits_eq_natDigits, toDigits_eq_natDigits] at h2
  simpa [List.asString] using h2

theorem cache_key_inj {a b : Nat} (h : cache_key a = cache_key b) : a = b := by
  apply nat_repr_inj
  apply String.ext
  have h2 := congrArg String.data h
  rw [cache_key, cache_key, String.data_append, String.data_append] at h2
  exact List.append_cancel_left h2

theorem find?_cacheDelete_ne (c : List (String × CacheVal)) (kA kB : String)
    (h : kA ≠ kB) :
    (cacheDelete c kA).find? (fun kv => kv.1 == kB) = c.find? (fun kv => kv.1 == kB) := by
  induction c with
  | nil => rfl
  | cons x xs ih =>
    by_cases hx : x.1 = kA
    · have h1 : (x.1 != kA) = false := by simp [hx]
      have h2 : (x.1 == kB) = false := by
        rw [hx]
        exact beq_false_of_ne h
      simp only [cacheDelete, List.filter_cons, h1, Bool.false_eq_true, if_false]
      rw [List.find?_cons_of_neg _ (by simp [h2])]
      exact ih
    · have h1 : (x.1 != kA) = true := by simp [hx]
      by_cases hB : x.1 = kB
      · simp only [cacheDelete, List.filter_cons, h1, if_true]
        rw [List.find?_cons_of_pos _ (by simp [hB]), List.find?_cons_of_pos _ (by simp [hB])]
      · simp only [cacheDelete, List.filter_cons, h1, if_true]
        rw [List.find?_cons_of_neg _ (by simp [hB]), List.find?_cons_of_neg _ (by simp [hB])]
        exact ih

theorem cacheLookup_invalidate_other (s : State) (A B : Nat) (h : A ≠ B) :
    cacheLookup (invalidate_cache s A) (cache_key B) = cacheLookup s (cache_key B) := by
  unfold invalidate_cache
  by_cases hup : s.cacheUp = true
  · rw [if_pos hup]
    unfold cacheLookup
    exact congrArg _ (find?_cacheDelete_ne s.cache _ _ (fun he => h (cache_key_inj he)))
  · rw [if_neg hup]

theorem cacheLookup_set_other (c : List (String × CacheVal))
    (A B : Nat) (v : CacheVal) (h : A ≠ B) :
    ((cacheSet c (cache_key A) v).find? (fun kv => kv.1 == cache_key B)).map
        (fun kv => kv.2) =
      (c.find? (fun kv => kv.1 == cache_key B)).map (fun kv => kv.2) := by
  have hk : cache_key A ≠ cache_key B := fun he => h (cache_key_inj he)
  unfold cacheSet
  rw [List.find?_cons_of_neg _ (by simp [hk])]
  rw [find?_cacheDelete_ne c _ _ hk]

theorem userTasks_filter_sub (rows : List TaskRow) (g : TaskRow → Bool) (B : Nat)
    (hg : ∀ t, t.userId = B → g t = true) :
    userTasks (rows.filter g) B = userTasks rows B := by
  unfold userTasks
  rw [List.filter_filter]
  apply List.filter_congr
  intro t ht
  cases hp : (t.userId == B) with
  | false => simp
  | true => simp [hg t (by simpa using hp)]

theorem userTasks_map_off (rows : List TaskRow) (f : TaskRow → TaskRow) (B : Nat)
    (hfu : ∀ t, (f t).userId = t.userId)
    (hf : ∀ t ∈ rows, t.userId = B → f t = t) :
    userTasks (rows.map f) B = userTasks rows B := by
  unfold userTasks
  rw [List.filter_map]
  have hcong : List.filter ((fun t => t.userId == B) ∘ f) rows
      = List.filter (fun t => t.userId == B) rows := by
    apply List.filter_congr
    intro t ht
    show ((f t).userId == B) = (t.userId == B)
    rw [hfu t]
  rw [hcong]
  have hid : ∀ t ∈ List.filter (fun t => t.userId == B) rows, f t = t := by
    intro t ht
    have hmem := List.mem_filter.mp ht
    exact hf t hmem.1 (by simpa using hmem.2)
  rw [List.map_congr_left hid, List.map_id']

theorem renumFn_userId (sorted : List TaskRow) (t : TaskRow) :
    (renumFn sorted t).userId = t.userId := by
  unfold renumFn
  cases h : sorted.findIdx? (fun x => x.id == t.id) <;> rfl

theorem renumFn_id (sorted : List TaskRow) (t : TaskRow) :
    (renumFn sorted t).id = t.id := by
  unfold renumFn
  cases h : sorted.findIdx? (fun x => x.id == t.id) <;> rfl

theorem renumFn_createdAt (sorted : List TaskRow) (t : TaskRow) :
    (renumFn sorted t).createdAt = t.createdAt := by
  unfold renumFn
  cases h : sorted.findIdx? (fun x => x.id == t.id) <;> rfl

theorem renumFn_skips (sorted : List TaskRow) (t : TaskRow)
    (h : ∀ x ∈ sorted, x.id ≠ t.id) : renumFn sorted t = t := by
  unfold renumFn
  have hnone : sorted.findIdx? (fun x => x.id == t.id) = none := by
    rw [List.findIdx?_eq_none_iff]
    intro x hx
    exact beq_false_of_ne (h x hx)
  rw [hnone]

theorem userTasks_renumber_other (rows : List TaskRow) (A B : Nat) (hAB : A ≠ B)
    (hid : rows.Pairwise (fun a b => a.id ≠ b.id)) :
    userTasks (renumber_user rows A) B = userTasks rows B := by
  unfold renumber_user
  apply userTasks_map_off
  · exact renumFn_userId _
  · intro t ht hB
    apply renumFn_skips
    intro x hx
    have hxmem : x ∈ userTasks rows A :=
      (List.perm_insertionSort created_le (userTasks rows A)).subset hx
    have hxA : x.userId = A := by
      have := (List.mem_filter.mp hxmem).2
      simpa using this
    have hxrows : x ∈ rows := (List.mem_filter.mp hxmem).1
    have hxt : x ≠ t := fun he => hAB (by rw [← hxA, he, hB])
    exact hid.forall (fun {_ _} hxy => Ne.symm hxy) hxrows ht hxt

theorem userTasks_append_one (rows : List TaskRow) (t : TaskRow) (B : Nat)
    (h : t.userId ≠ B) : userTasks (rows ++ [t]) B = userTasks rows B := by
  unfold userTasks
  rw [List.filter_append]
  simp [beq_false_of_ne h]

theorem get_user_tasks_state (s : State) (A B : Nat) (hAB : A ≠ B) :
    (get_user_tasks s A).2.rows = s.rows ∧
    cacheLookup (get_user_tasks s A).2 (cache_key B) = cacheLookup s (cache_key B) := by
  unfold get_user_tasks
  by_cases hup : s.cacheUp = true
  · rw [if_pos hup]
    cases hc : cacheLookup s (cache_key A) with
    | none =>
      dsimp only
      unfold load_tasks_from_db
      rw [if_pos hup]
      refine ⟨rfl, ?_⟩
      exact (cacheLookup_set_other s.cache A B _ hAB).trans rfl
    | some v =>
      cases v with
      | tasksJson ts => exact ⟨rfl, rfl⟩
      | badJson j =>
        dsimp only [json_loads_tasks]
        unfold load_tasks_from_db
        rw [if_pos hup]
        refine ⟨rfl, ?_⟩
        exact (cacheLookup_set_other s.cache A B _ hAB).trans rfl
  · rw [if_neg hup]
    exact ⟨rfl, rfl⟩

/-- C9: an operation invoked for owner `A` — add, list, complete, delete,
clear-all or complete-all — leaves owner `B`'s rows (and with them their
display positions) and owner `B`'s cache entry unchanged, for any other
owner `B`.  Pairwise-distinct `id`s (the store's `PRIMARY KEY` constraint)
are assumed for the delete-renumbering case. -/
theorem owner_isolation (s : State) (A B p : Nat) (text : String)
    (hAB : A ≠ B) (hid : s.rows.Pairwise (fun a b => a.id ≠ b.id)) :
    userTasks (save_task_to_db s A text).2.rows B = userTasks s.rows B ∧
    cacheLookup (save_task_to_db s A text).2 (cache_key B) = cacheLookup s (cache_key B) ∧
    userTasks (get_user_tasks s A).2.rows B = userTasks s.rows B ∧
    cacheLookup (get_user_tasks s A).2 (cache_key B) = cacheLookup s (cache_key B) ∧
    userTasks (mark_done_in_db s A p).2.rows B = userTasks s.rows B ∧
    cacheLookup (mark_done_in_db s A p).2 (cache_key B) = cacheLookup s (cache_key B) ∧
    userTasks (delete_task_from_db s A p).2.rows B = userTasks s.rows B ∧
    cacheLookup (delete_task_from_db s A p).2 (cache_key B) = cacheLookup s (cache_key B) ∧
    userTasks (clear_all_tasks_db s A).2.rows B = userTasks s.rows B ∧
    cacheLookup (clear_all_tasks_db s A).2 (cache_key B) = cacheLookup s (cache_key B) ∧
    userTasks (done_all_tasks_db s A).2.rows B = userTasks s.rows B ∧
    cacheLookup (done_all_tasks_db s A).2 (cache_key B) = cacheLookup s (cache_key B) := by
  have hBA : ∀ t : TaskRow, t.userId = B → (t.userId == A) = false := by
    intro t ht
    rw [ht]
    exact beq_false_of_ne (Ne.symm hAB)
  refine ⟨?_, ?_, ?_, (get_user_tasks_state s A B hAB).2,
    ?_, ?_, ?_, ?_, ?_, ?_, ?_, ?_⟩
  · have h1 : (save_task_to_db s A text).2.rows =
        s.rows ++ [{ id := s.nextId, userId := A, text := text, done := false,
                     createdAt := s.now, taskIdInList := maxPosition s.rows A + 1 }] := by
      unfold save_task_to_db
      dsimp only
      rw [invalidate_cache_rows]
    rw [h1]
    exact userTasks_append_one _ _ _ hAB
  · unfold save_task_to_db
    dsimp only
    exact (cacheLookup_invalidate_other _ A B hAB).trans rfl
  · rw [(get_user_tasks_state s A B hAB).1]
  · by_cases hex : taskExists s.rows A p = true
    · rw [mark_done_spec s A p hex]
      dsimp only
      rw [invalidate_cache_rows]
      apply userTasks_map_off
      · intro t
        cases hc : (t.userId == A && t.taskIdInList == p) <;> simp [hc]
      · intro t ht hB
        simp [hBA t hB]
    · unfold mark_done_in_db
      rw [if_neg hex]
  · by_cases hex : taskExists s.rows A p = true
    · rw [mark_done_spec s A p hex]
      dsimp only
      exact (cacheLookup_invalidate_other _ A B hAB).trans rfl
    · unfold mark_done_in_db
      rw [if_neg hex]
  · by_cases hex : taskExists s.rows A p = true
    · rw [delete_spec s A p hex]
      dsimp only
      rw [invalidate_cache_rows]
      rw [userTasks_renumber_other _ A B hAB
        (List.Pairwise.sublist (List.filter_sublist s.rows) hid)]
      apply userTasks_filter_sub
      intro t ht
      simp [hBA t ht]
    · unfold delete_task_from_db
      rw [if_neg hex]
  · by_cases hex : taskExists s.rows A p = true
    · rw [delete_spec s A p hex]
      dsimp only
      exact (cacheLookup_invalidate_other _ A B hAB).trans rfl
    · unfold delete_task_from_db
      rw [if_neg hex]
  · by_cases hcnt : (userTasks s.rows A).length = 0
    · unfold clear_all_tasks_db
      dsimp only
      rw [if_pos hcnt]
    · rw [clear_spec s A hcnt]
      dsimp only
      rw [invalidate_cache_rows]
      apply userTasks_filter_sub
      intro t ht
      simp [hBA t ht]
  · by_cases hcnt : (userTasks s.rows A).length = 0
    · unfold clear_all_tasks_db
      dsimp only
      rw [if_pos hcnt]
    · rw [clear_spec s A hcnt]
      dsimp only
      exact (cacheLookup_invalidate_other _ A B hAB).trans rfl
  · by_cases hcnt : ((userTasks s.rows A).filter (fun t => !t.done)).length = 0
    · unfold done_all_tasks_db
      dsimp only
      rw [if_pos hcnt]
    · rw [done_all_spec s A hcnt]
      dsimp only
      rw [invalidate_cache_rows]
      apply userTasks_map_off
      · intro t
        cases hc : (t.userId == A) <;> simp [hc]
      · intro t ht hB
        simp [hBA t hB]
  · by_cases hcnt : ((userTasks s.rows A).filter (fun t => !t.done)).length = 0
    · unfold done_all_tasks_db
      dsimp only
      rw [if_pos hcnt]
    · rw [done_all_spec s A hcnt]
      dsimp only
      exact (cacheLookup_invalidate_other _ A B hAB).trans rfl

/-- C9 witness: operations for owner 1 on `w_stale` leave owner 2's (empty)
row set and absent cache entry unchanged. -/
theorem owner_isolation_witness :
    (1 : Nat) ≠ 2 ∧ w_stale.rows.Pairwise (fun a b => a.id ≠ b.id) ∧
    (userTasks (save_task_to_db w_stale 1 "x").2.rows 2 = userTasks w_stale.rows 2 ∧
     cacheLookup (save_task_to_db w_stale 1 "x").2 (cache_key 2) =
       cacheLookup w_stale (cache_key 2) ∧
     userTasks (get_user_tasks w_stale 1).2.rows 2 = userTasks w_stale.rows 2 ∧
     cacheLookup (get_user_tasks w_stale 1).2 (cache_key 2) =
       cacheLookup w_stale (cache_key 2) ∧
     userTasks (mark_done_in_db w_stale 1 1).2.rows 2 = userTasks w_stale.rows 2 ∧
     cacheLookup (mark_done_in_db w_stale 1 1).2 (cache_key 2) =
       cacheLookup w_stale (cache_key 2) ∧
     userTasks (delete_task_from_db w_stale 1 1).2.rows 2 = userTasks w_stale.rows 2 ∧
     cacheLookup (delete_task_from_db w_stale 1 1).2 (cache_key 2) =
       cacheLookup w_stale (cache_key 2) ∧
     userTasks (clear_all_tasks_db w_stale 1).2.rows 2 = userTasks w_stale.rows 2 ∧
     cacheLookup (clear_all_tasks_db w_stale 1).2 (cache_key 2) =
       cacheLookup w_stale (cache_key 2) ∧
     userTasks (done_all_tasks_db w_stale 1).2.rows 2 = userTasks w_stale.rows 2 ∧
     cacheLookup (done_all_tasks_db w_stale 1).2 (cache_key 2) =
       cacheLookup w_stale (cache_key 2)) :=
  ⟨by decide, by simp [w_stale], owner_isolation w_stale 1 2 1 "x" (by decide) (by simp [w_stale])⟩

theorem countLt_mono (ts : List TaskRow) {c c' : Nat} (h : c ≤ c') :
    countLt ts c ≤ countLt ts c' := by
  apply List.Sublist.length_le
  apply List.monotone_filter_right
  intro a ha
  simp only [decide_eq_true_eq] at ha ⊢
  omega

theorem countLt_strict (ts : List TaskRow) (t : TaskRow) (ht : t ∈ ts)
    {c' : Nat} (hlt : t.createdAt < c') :
    countLt ts t.createdAt < countLt ts c' := by
  induction ts with
  | nil => cases ht
  | cons x xs ih =>
    rcases List.mem_cons.mp ht with rfl | hmem
    · have hm := countLt_mono xs (Nat.le_of_lt hlt)
      simp only [countLt, List.filter_cons] at hm ⊢
      have h1 : decide (t.createdAt < t.createdAt) = false := by simp
      have h2 : decide (t.createdAt < c') = true := by simpa using hlt
      rw [h1, h2]
      simp only [Bool.false_eq_true, if_false, if_true, List.length_cons]
      omega
    · have ih' := ih hmem
      simp only [countLt, List.filter_cons] at ih' ⊢
      by_cases hx : x.createdAt < t.createdAt
      · have hx' : x.createdAt < c' := Nat.lt_trans hx hlt
        simp [hx, hx']
        omega
      · by_cases hx2 : x.createdAt < c'
        · simp [hx, hx2]
          omega
        · simp [hx, hx2]
          omega

theorem countLt_lt_length (ts : List TaskRow) (t : TaskRow) (ht : t ∈ ts) :
    countLt ts t.createdAt < ts.length := by
  rcases Nat.lt_or_ge (countLt ts t.createdAt) ts.length with h | h
  · exact h
  · exfalso
    have hsub : List.Sublist (List.filter (fun x => decide (x.createdAt < t.createdAt)) ts) ts :=
      List.filter_sublist ts
    have heq : List.filter (fun x => decide (x.createdAt < t.createdAt)) ts = ts :=
      hsub.eq_of_length (Nat.le_antisymm hsub.length_le h)
    have hmem : t ∈ List.filter (fun x => decide (x.createdAt < t.createdAt)) ts := by
      rw [heq]
      exact ht
    have := (List.mem_filter.mp hmem).2
    simp at this

theorem countLt_append (l1 l2 : List TaskRow) (c : Nat) :
    countLt (l1 ++ l2) c = countLt l1 c + countLt l2 c := by
  simp [countLt, List.filter_append]

theorem countLt_map_preserve (l : List TaskRow) (f : TaskRow → TaskRow) (c : Nat)
    (h : ∀ t, (f t).createdAt = t.createdAt) :
    countLt (l.map f) c = countLt l c := by
  unfold countLt
  rw [List.filter_map, List.length_map]
  congr 1
  apply List.filter_congr
  intro t ht
  show decide ((f t).createdAt < c) = decide (t.createdAt < c)
  rw [h t]

theorem countLt_perm {l1 l2 : List TaskRow} (h : l1.Perm l2) (c : Nat) :
    countLt l1 c = countLt l2 c :=
  (h.filter _).length_eq

theorem posOk_pos_bounds (ts : List TaskRow) (hpos : PosOk ts)
    (t : TaskRow) (ht : t ∈ ts) :
    1 ≤ t.taskIdInList ∧ t.taskIdInList ≤ ts.length := by
  have h1 := hpos t ht
  have h2 := countLt_lt_length ts t ht
  omega

theorem posOk_inj (ts : List TaskRow) (hpos : PosOk ts)
    (hc : ts.Pairwise (fun a b => a.createdAt ≠ b.createdAt)) :
    ∀ x ∈ ts, ∀ y ∈ ts, x.taskIdInList = y.taskIdInList → x = y := by
  intro x hx y hy he
  by_contra hne
  have hcx : x.createdAt ≠ y.createdAt :=
    hc.forall (fun {_ _} hxy => Ne.symm hxy) hx hy hne
  rcases Nat.lt_or_ge x.createdAt y.createdAt with h | h
  · have hlt := countLt_strict ts x hx h
    rw [hpos x hx, hpos y hy] at he
    omega
  · have h' : y.createdAt < x.createdAt := by omega
    have hlt := countLt_strict ts y hy h'
    rw [hpos x hx, hpos y hy] at he
    omega

theorem dense_of_posOk (ts : List TaskRow) (hpos : PosOk ts)
    (hc : ts.Pairwise (fun a b => a.createdAt ≠ b.createdAt)) :
    (ts.map (fun t => t.taskIdInList)).Perm (List.range' 1 ts.length) ∧
    ∀ t1 ∈ ts, ∀ t2 ∈ ts, t1.createdAt < t2.createdAt →
      t1.taskIdInList < t2.taskIdInList := by
  constructor
  · have hnd : ts.Nodup := hc.imp (fun h => fun he => h (by rw [he]))
    have hmapnd : (ts.map (fun t => t.taskIdInList)).Nodup :=
      List.Nodup.map_on (posOk_inj ts hpos hc) hnd
    have hrange : (List.range' 1 ts.length).Nodup := List.nodup_range' 1 ts.length
    apply List.perm_of_nodup_nodup_toFinset_eq hmapnd hrange
    apply Finset.eq_of_subset_of_card_le
    · intro a ha
      rw [List.mem_toFinset] at ha ⊢
      obtain ⟨t, ht, rfl⟩ := List.mem_map.mp ha
      rw [List.mem_range'_1]
      have := posOk_pos_bounds ts hpos t ht
      omega
    · rw [List.toFinset_card_of_nodup hmapnd, List.toFinset_card_of_nodup hrange]
      rw [List.length_map, List.length_range']
  · intro t1 ht1 t2 ht2 hlt
    rw [hpos t1 ht1, hpos t2 ht2]
    have := countLt_strict ts t1 ht1 hlt
    omega

theorem foldr_max_acc (l : List Nat) (c : Nat) :
    l.foldr max c = max c (l.foldr max 0) := by
  induction l with
  | nil => simp
  | cons x xs ih =>
    simp only [List.foldr_cons, ih]
    rw [Nat.max_left_comm]

theorem foldr_max_range' (n : Nat) : (List.range' 1 n).foldr max 0 = n := by
  induction n with
  | zero => rfl
  | succ n ih =>
    rw [List.range'_concat, List.foldr_append]
    simp only [List.foldr_cons, List.foldr_nil]
    rw [foldr_max_acc, ih]
    omega

theorem maxPos_eq_length (ts : List TaskRow) (hpos : PosOk ts)
    (hc : ts.Pairwise (fun a b => a.createdAt ≠ b.createdAt)) :
    (ts.map (fun t => t.taskIdInList)).foldr max 0 = ts.length := by
  have hperm := (dense_of_posOk ts hpos hc).1
  have hcomm : ∀ x ∈ ts.map (fun t => t.taskIdInList),
      ∀ y ∈ ts.map (fun t => t.taskIdInList), ∀ z : Nat,
      max y (max x z) = max x (max y z) := by
    intro x _ y _ z
    rw [Nat.max_left_comm]
  rw [List.Perm.foldr_eq' hperm hcomm 0, foldr_max_range']

theorem sorted_findIdx_count (l : List TaskRow)
    (hs : List.Sorted created_le l)
    (hc : l.Pairwise (fun a b => a.createdAt ≠ b.createdAt))
    (hid : l.Pairwise (fun a b => a.id ≠ b.id)) :
    ∀ t ∈ l, l.findIdx? (fun x => x.id == t.id) = some (countLt l t.createdAt) := by
  induction l with
  | nil => intro t ht; cases ht
  | cons x xs ih =>
    intro t ht
    have hs' := List.sorted_cons.mp hs
    have hc' := List.pairwise_cons.mp hc
    have hid' := List.pairwise_cons.mp hid
    rcases List.mem_cons.mp ht with rfl | hmem
    · rw [List.findIdx?_cons]
      have hbeq : (t.id == t.id) = true := beq_self_eq_true _
      have hnil : List.filter (fun y => decide (y.createdAt < t.createdAt)) xs = [] := by
        rw [List.filter_eq_nil_iff]
        intro y hy
        have hle := hs'.1 y hy
        unfold created_le at hle
        simp only [decide_eq_true_eq]
        omega
      simp [hbeq, countLt, List.filter_cons, hnil]
    · have hxid : (x.id == t.id) = false := beq_false_of_ne (hid'.1 t hmem)
      rw [List.findIdx?_cons, hxid]
      simp only [Bool.false_eq_true, if_false]
      rw [List.findIdx?_succ, ih hs'.2 hc'.2 hid'.2 t hmem]
      have hx : x.createdAt < t.createdAt := by
        have h1 := hs'.1 t hmem
        have h2 := hc'.1 t hmem
        unfold created_le at h1
        omega
      simp [countLt, List.filter_cons, hx]

theorem userTasks_map_pres (rows : List TaskRow) (f : TaskRow → TaskRow) (u : Nat)
    (hfu : ∀ t, (f t).userId = t.userId) :
    userTasks (rows.map f) u = (userTasks rows u).map f := by
  unfold userTasks
  rw [List.filter_map]
  congr 1
  apply List.filter_congr
  intro t ht
  show ((f t).userId == u) = (t.userId == u)
  rw [hfu t]

theorem posOk_renumber (rows : List TaskRow) (u : Nat)
    (hc : rows.Pairwise (fun a b => a.createdAt ≠ b.createdAt))
    (hid : rows.Pairwise (fun a b => a.id ≠ b.id)) :
    PosOk (userTasks (renumber_user rows u) u) := by
  unfold renumber_user
  set R := userTasks rows u with hR
  set sorted := List.insertionSort created_le R with hsorted
  have hperm : sorted.Perm R := List.perm_insertionSort created_le R
  have hcR : R.Pairwise (fun a b => a.createdAt ≠ b.createdAt) :=
    List.Pairwise.sublist (List.filter_sublist rows) hc
  have hidR : R.Pairwise (fun a b => a.id ≠ b.id) :=
    List.Pairwise.sublist (List.filter_sublist rows) hid
  have hcS : sorted.Pairwise (fun a b => a.createdAt ≠ b.createdAt) :=
    (List.Perm.pairwise_iff (fun {_ _} h => Ne.symm h) hperm).mpr hcR
  have hidS : sorted.Pairwise (fun a b => a.id ≠ b.id) :=
    (List.Perm.pairwise_iff (fun {_ _} h => Ne.symm h) hperm).mpr hidR
  have hsS : List.Sorted created_le sorted := List.sorted_insertionSort created_le R
  rw [userTasks_map_pres rows _ u (renumFn_userId sorted)]
  unfold PosOk
  intro t' ht'
  obtain ⟨t, htR, rfl⟩ := List.mem_map.mp ht'
  have htS : t ∈ sorted := hperm.mem_iff.mpr htR
  have hidx := sorted_findIdx_count sorted hsS hcS hidS t htS
  have hft : renumFn sorted t = { t with taskIdInList := countLt sorted t.createdAt + 1 } := by
    unfold renumFn
    rw [hidx]
  rw [hft]
  show countLt sorted t.createdAt + 1 = countLt (R.map (renumFn sorted)) t.createdAt + 1
  rw [countLt_map_preserve R (renumFn sorted) t.createdAt (renumFn_createdAt sorted)]
  rw [countLt_perm hperm.symm]

theorem invalidate_cache_now (s : State) (u : Nat) :
    (invalidate_cache s u).now = s.now := by
  unfold invalidate_cache
  split <;> rfl

theorem invalidate_cache_nextId (s : State) (u : Nat) :
    (invalidate_cache s u).nextId = s.nextId := by
  unfold invalidate_cache
  split <;> rfl

theorem storeInv_invalidate (s : State) (u : Nat) :
    StoreInv (invalidate_cache s u) ↔ StoreInv s := by
  unfold StoreInv
  rw [invalidate_cache_rows, invalidate_cache_now, invalidate_cache_nextId]

theorem storeInv_save (s : State) (u : Nat) (text : String) (h : StoreInv s) :
    StoreInv (save_task_to_db s u text).2 := by
  obtain ⟨hclock, hidlt, hpid, hpc, hpos⟩ := h
  set row : TaskRow := { id := s.nextId, userId := u, text := text, done := false, createdAt := s.now, taskIdInList := maxPosition s.rows u + 1 } with hrow
  have h2 : (save_task_to_db s u text).2 =
      invalidate_cache { s with rows := s.rows ++ [row], nextId := s.nextId + 1, now := s.now + 1 } u := rfl
  have hrowc : row.createdAt = s.now := rfl
  have hrowid : row.id = s.nextId := rfl
  have hrowu : row.userId = u := rfl
  have hrowpos : row.taskIdInList = maxPosition s.rows u + 1 := rfl
  rw [h2, storeInv_invalidate]
  unfold StoreInv
  dsimp only
  refine ⟨?_, ?_, ?_, ?_, ?_⟩
  · intro t ht
    rcases List.mem_append.mp ht with hmem | hmem
    · have := hclock t hmem
      omega
    · rw [List.mem_singleton.mp hmem, hrowc]
      omega
  · intro t ht
    rcases List.mem_append.mp ht with hmem | hmem
    · have := hidlt t hmem
      omega
    · rw [List.mem_singleton.mp hmem, hrowid]
      omega
  · rw [List.pairwise_append]
    refine ⟨hpid, by simp, ?_⟩
    intro a ha b hb
    rw [List.mem_singleton.mp hb, hrowid]
    have := hidlt a ha
    omega
  · rw [List.pairwise_append]
    refine ⟨hpc, by simp, ?_⟩
    intro a ha b hb
    rw [List.mem_singleton.mp hb, hrowc]
    have := hclock a ha
    omega
  · intro v
    by_cases hv : v = u
    · subst hv
      have hsplit : userTasks (s.rows ++ [row]) v = userTasks s.rows v ++ [row] := by
        unfold userTasks
        rw [List.filter_append]
        simp [hrowu]
      rw [hsplit]
      unfold PosOk
      intro t ht
      rcases List.mem_append.mp ht with hmem | hmem
      · have htc : t.createdAt < s.now := hclock t (List.mem_filter.mp hmem).1
        have h0 : countLt [row] t.createdAt = 0 := by
          simp [countLt, hrowc]
          omega
        rw [countLt_append, h0]
        have := hpos v t hmem
        omega
      · rw [List.mem_singleton.mp hmem]
        have hcS : (userTasks s.rows v).Pairwise (fun a b => a.createdAt ≠ b.createdAt) :=
          List.Pairwise.sublist (List.filter_sublist s.rows) hpc
        have hmax : maxPosition s.rows v = (userTasks s.rows v).length := by
          unfold maxPosition
          exact maxPos_eq_length _ (hpos v) hcS
        have hfull : countLt (userTasks s.rows v) s.now = (userTasks s.rows v).length := by
          unfold countLt
          rw [List.filter_eq_self.mpr]
          intro x hx
          have := hclock x (List.mem_filter.mp hx).1
          simpa using this
        have h0 : countLt [row] s.now = 0 := by
          simp [countLt, hrowc]
        rw [hrowpos, hrowc, countLt_append, h0, hfull, hmax]
    · have hne : row.userId ≠ v := by
        rw [hrowu]
        exact fun he => hv he.symm
      rw [userTasks_append_one s.rows row v hne]
      exact hpos v

theorem storeInv_delete (s : State) (u p : Nat) (h : StoreInv s) :
    StoreInv (delete_task_from_db s u p).2 := by
  by_cases hex : taskExists s.rows u p = true
  · rw [delete_spec s u p hex]
    dsimp only
    rw [storeInv_invalidate]
    obtain ⟨hclock, hidlt, hpid, hpc, hpos⟩ := h
    have hsubr : List.Sublist
        (s.rows.filter (fun t => !(t.userId == u && t.taskIdInList == p))) s.rows :=
      List.filter_sublist s.rows
    have hpidR := List.Pairwise.sublist hsubr hpid
    have hpcR := List.Pairwise.sublist hsubr hpc
    unfold StoreInv
    dsimp only
    refine ⟨?_, ?_, ?_, ?_, ?_⟩
    · intro t' ht'
      unfold renumber_user at ht'
      obtain ⟨t, ht, rfl⟩ := List.mem_map.mp ht'
      rw [renumFn_createdAt]
      exact hclock t (hsubr.subset ht)
    · intro t' ht'
      unfold renumber_user at ht'
      obtain ⟨t, ht, rfl⟩ := List.mem_map.mp ht'
      rw [renumFn_id]
      exact hidlt t (hsubr.subset ht)
    · unfold renumber_user
      rw [List.pairwise_map]
      exact hpidR.imp (fun {a b} hab => by rw [renumFn_id, renumFn_id]; exact hab)
    · unfold renumber_user
      rw [List.pairwise_map]
      exact hpcR.imp (fun {a b} hab => by rw [renumFn_createdAt, renumFn_createdAt]; exact hab)
    · intro v
      by_cases hv : v = u
      · subst hv
        exact posOk_renumber _ v hpcR hpidR
      · rw [userTasks_renumber_other _ u v (fun he => hv he.symm) hpidR]
        have hfs : userTasks (s.rows.filter
            (fun t => !(t.userId == u && t.taskIdInList == p))) v = userTasks s.rows v := by
          apply userTasks_filter_sub
          intro t htv
          have hf : (t.userId == u) = false := by
            rw [htv]
            exact beq_false_of_ne hv
          simp [hf]
        rw [hfs]
        exact hpos v
  · unfold delete_task_from_db
    rw [if_neg hex]
    exact h

theorem storeInv_initial : StoreInv initial_state := by
  unfold StoreInv initial_state userTasks PosOk
  refine ⟨?_, ?_, ?_, ?_, ?_⟩ <;> simp

theorem storeInv_runOps_aux (ops : List Op) :
    ∀ s, StoreInv s → StoreInv (ops.foldl applyOp s) := by
  induction ops with
  | nil => intro s h; exact h
  | cons op ops ih =>
    intro s h
    rw [List.foldl_cons]
    apply ih
    cases op with
    | add u t => exact storeInv_save s u t h
    | del u p => exact storeInv_delete s u p h

/-- C1: starting from a fresh deployment, after any finite sequence of add
and delete operations (failed deletes change nothing, so in particular
after any all-successful sequence), every owner's display positions are
exactly a permutation of `{1, ..., N}` — `N` being that owner's current
task count, so no gaps and no duplicates — and strictly ordered by
`created_at`. -/
theorem dense_positions_after_ops (ops : List Op) (u : Nat) :
    densePositions (runOps ops).rows u := by
  have h : StoreInv (runOps ops) := storeInv_runOps_aux ops initial_state storeInv_initial
  obtain ⟨hclock, hidlt, hpid, hpc, hpos⟩ := h
  have hcu : (userTasks (runOps ops).rows u).Pairwise
      (fun a b => a.createdAt ≠ b.createdAt) :=
    List.Pairwise.sublist (List.filter_sublist _) hpc
  unfold densePositions
  exact dense_of_posOk _ (hpos u) hcu
